import Mathlib

/-!
# Verification of the ting-reader offline media cache subsystem

Shallow embedding of the three components of the offline media cache
subsystem of the ting-reader app, with theorems checking the
natural-language specification against the code:

* the bounded local file cache (`src/utils/image.ts` / mobileCacheManager:
  `getCachedFile`, `ensureCacheLimits`),
* the chunked downloader (`downloadToCache` in the same file),
* the download queue (the zustand download store: `addTask`,
  `processQueue`, `startDownload`, `initializeQueue`, ...).

Filesystem and network effects are made explicit: the cache is a list of
file entries, per-operation outcomes (deletion success, HTTP statuses,
chunk payloads) are supplied by oracle parameters, and the downloader
additionally records the trace of network requests and temp-file writes.
-/

set_option maxHeartbeats 1000000

namespace TingReader

/-! ## Cache store model (mobileCacheManager) -/

/-- `MAX_CACHE_SIZE_BYTES = 2 * 1024 * 1024 * 1024` — the 2 GiB cache size limit. -/
def MAX_CACHE_SIZE_BYTES : Nat := 2 * 1024 * 1024 * 1024

/-- `MAX_FILES = 50` — the cache file-count limit. -/
def MAX_FILES : Nat := 50

/-- One cached file as seen by `getCacheStats`: name, size in bytes and
modification time (ms). -/
structure FileEntry where
  name : String
  size : Nat
  mtime : Nat
deriving DecidableEq, Repr

/-- `file.name.endsWith('.tmp')` — temp files are skipped by `getCacheStats`. -/
def isTmpName (n : String) : Bool := n.endsWith ".tmp"

/-- The non-temp entries of the cache directory, in directory order
(the `validFiles` list built by `getCacheStats`). -/
def validFiles (fs : List FileEntry) : List FileEntry :=
  fs.filter (fun f => !isTmpName f.name)

/-- `totalSize` as computed by `getCacheStats`: sum of the entry sizes. -/
def cacheSize (l : List FileEntry) : Nat := (l.map FileEntry.size).sum

/-- The comparator of `files.sort((a, b) => (a.mtime || 0) - (b.mtime || 0))`:
ascending modification time. -/
def mtimeLE (a b : FileEntry) : Prop := a.mtime ≤ b.mtime

instance : DecidableRel mtimeLE := fun a b => Nat.decLe a.mtime b.mtime

instance : IsTotal FileEntry mtimeLE := ⟨fun a b => Nat.le_total a.mtime b.mtime⟩

instance : IsTrans FileEntry mtimeLE := ⟨fun _ _ _ h1 h2 => Nat.le_trans h1 h2⟩

/-- The size pass of `ensureCacheLimits`:
`for (const file of files) { if (currentSize <= MAX_CACHE_SIZE_BYTES) break;
filesToDelete.push(file); currentSize -= file.size }`.
Returns the pair (files pushed onto `filesToDelete`, files kept). -/
def feSizePass (cur : Nat) : List FileEntry → List FileEntry × List FileEntry
  | [] => ([], [])
  | f :: rest =>
    if cur ≤ MAX_CACHE_SIZE_BYTES then ([], f :: rest)
    else
      let p := feSizePass (cur - f.size) rest
      (f :: p.1, p.2)

/-- The selection phase of `ensureCacheLimits` once a limit is exceeded:
sort by mtime ascending, drop the oldest `length - MAX_FILES` entries
(the `splice` count pass), then run the size pass on the remainder.
Returns (`filesToDelete` in deletion order, kept entries). -/
def selectEvictions (files0 : List FileEntry) (size : Nat) :
    List FileEntry × List FileEntry :=
  let sorted := List.insertionSort mtimeLE files0
  if MAX_FILES < sorted.length then
    let countToDelete := sorted.length - MAX_FILES
    let deletedByCount := sorted.take countToDelete
    let files := sorted.drop countToDelete
    let currentSize := deletedByCount.foldl (fun c f => c - f.size) size
    let p := feSizePass currentSize files
    (deletedByCount ++ p.1, p.2)
  else
    feSizePass size sorted

/-- The deletion loop `for (const file of filesToDelete) await Filesystem.deleteFile(...)`.
`deleteOk` gives the outcome of each `deleteFile`; the loop has no per-file
handler, so the first failing delete throws out of the loop (the exception is
then caught by the handler wrapping the whole pass) and the remaining files
stay. -/
def runDeletes (deleteOk : String → Bool) :
    List FileEntry → List FileEntry → List FileEntry
  | [], fs => fs
  | f :: rest, fs =>
    if deleteOk f.name then
      runDeletes deleteOk rest (fs.filter (fun g => g.name != f.name))
    else fs

/-- `ensureCacheLimits` (the eviction pass): compute stats over non-temp
files; if `size > MAX_CACHE_SIZE_BYTES || files.length > MAX_FILES`, select
victims (count pass then size pass, oldest first) and delete them in order.
The surrounding `try/catch` swallows any error, so the function always
returns; the resulting directory contents are returned. -/
def ensureCacheLimits (deleteOk : String → Bool) (fs : List FileEntry) :
    List FileEntry :=
  let valid := validFiles fs
  let size := cacheSize valid
  if MAX_CACHE_SIZE_BYTES < size ∨ MAX_FILES < valid.length then
    runDeletes deleteOk (selectEvictions valid size).1 fs
  else fs

/-- `getCachedFile(fileName)`: `Filesystem.stat`, treating a zero-size file
as corrupt (delete it — best effort, the inner `catch` swallows a failing
delete — and report absent), a missing file as absent (the outer `catch`),
and otherwise returning `stat.uri`. `files` maps a name to its size when
present, `uriOf` models `stat.uri`, `deleteOk` is the outcome of the
best-effort `deleteFile`. Returns the result and the resulting directory. -/
def getCachedFile (files : String → Option Nat) (uriOf : String → String)
    (deleteOk : Bool) (fileName : String) :
    Option String × (String → Option Nat) :=
  match files fileName with
  | none => (none, files)
  | some size =>
    if size = 0 then
      (none, if deleteOk then (fun m => if m = fileName then none else files m)
             else files)
    else (some (uriOf fileName), files)

/-- Concrete 52-entry cache used to exercise eviction: files `f0`..`f51`,
each of size 1, with ascending mtimes. -/
def fs52 : List FileEntry :=
  (List.range 52).map (fun i => ⟨"f" ++ toString i, 1, i⟩)

/-- Deletion oracle that fails exactly on `f0` (the oldest file). -/
def failF0 (n : String) : Bool := n != "f0"

/-! ## Chunked downloader model (`downloadToCache`)

`downloadToCache(url, fileName)` is embedded as a function of an oracle
(`DlWorld`) fixing the outcome of every network request and filesystem
operation of one run, and of the initial cache directory.  The directory is
a map from file name to content, where a content is the list of data
segments written into the file (one segment per `writeFile`/`appendFile`).
Besides the resulting directory and the `Except` result, the run records
the network requests issued and the writes applied to the temp file.

Two steps of the source are simplifications-by-omission, both irrelevant
to failure atomicity: the detached `ensureCacheLimits().catch(...)` fired
after the rename (its errors are swallowed and it runs outside this call),
and `Filesystem.getUri`, a pure path computation modelled by the total
oracle `uriOf`. -/

/-- `CHUNK_SIZE = 1024 * 1024` — 1 MiB chunks. -/
def CHUNK_SIZE : Nat := 1024 * 1024

/-- A directory: file name to content (list of written segments). -/
def DlFS : Type := String → Option (List String)

/-- Point update of a directory. -/
def fsSet (fs : DlFS) (n : String) (v : Option (List String)) : DlFS :=
  fun m => if m = n then v else fs m

/-- One network request of a run: the HEAD probe, a ranged chunk GET
(`Range: bytes=first-last`), or the whole-body GET. -/
inductive Req where
  | head : Req
  | getRange (first last : Nat) : Req
  | getPlain : Req
deriving DecidableEq, Repr

/-- One write to the temp file: `writeFile` (create) or `appendFile`. -/
inductive WOp where
  | create (data : String) : WOp
  | append (data : String) : WOp
deriving DecidableEq, Repr

/-- Oracle fixing every outcome of one `downloadToCache` run.  Chunked
requests are indexed by chunk number (`offset / CHUNK_SIZE`). -/
structure DlWorld where
  /-- the `readdir`-or-`mkdir` of `CACHE_DIR` succeeds -/
  dirOk : Bool
  /-- the HEAD probe succeeds (no transport error) -/
  headOk : Bool
  /-- `parseInt(contentLength || '0')`: 0 when the header is absent or unparsable -/
  headSize : Nat
  /-- chunk GET transport outcome -/
  chunkOk : Nat → Bool
  /-- chunk GET HTTP status -/
  chunkStatus : Nat → Nat
  /-- chunk GET body -/
  chunkData : Nat → String
  /-- `writeFile`/`appendFile` outcome for each chunk -/
  chunkWriteOk : Nat → Bool
  /-- whole-body GET transport outcome -/
  singleOk : Bool
  /-- whole-body GET HTTP status -/
  singleStatus : Nat
  /-- whole-body GET body -/
  singleData : String
  /-- whole-body `writeFile` outcome -/
  singleWriteOk : Bool
  /-- `Filesystem.rename` outcome -/
  renameOk : Bool
  /-- outcome of the best-effort delete of a stale temp file before the transfer -/
  preDeleteOk : Bool
  /-- outcome of the best-effort temp cleanup in the catch handler -/
  cleanupDeleteOk : Bool
  /-- `Filesystem.getUri` -/
  uriOf : String → String

/-- Output of the chunk loop: requests issued, writes applied to the temp
file, resulting directory, and the error that broke the loop, if any. -/
structure ChunkOut where
  reqs : List Req
  writes : List WOp
  fs : DlFS
  err : Option String

/-- The chunk loop of `downloadToCache`:
`while (offset < totalSize) { GET with Range bytes=offset-end;
throw on status >= 400; writeFile for the first chunk, appendFile after;
offset += CHUNK_SIZE }`. -/
def chunkLoop (w : DlWorld) (tempName : String) (total offset : Nat)
    (fs : DlFS) : ChunkOut :=
  if _h : offset < total then
    let e := min (offset + CHUNK_SIZE - 1) (total - 1)
    let i := offset / CHUNK_SIZE
    if w.chunkOk i then
      if 400 ≤ w.chunkStatus i then
        { reqs := [Req.getRange offset e], writes := [], fs := fs,
          err := some ("Download chunk failed: " ++ toString (w.chunkStatus i)) }
      else if w.chunkWriteOk i then
        let fs' := if offset = 0 then fsSet fs tempName (some [w.chunkData i])
                   else fsSet fs tempName
                     (some ((fs tempName).getD [] ++ [w.chunkData i]))
        let rest := chunkLoop w tempName total (CHUNK_SIZE + offset) fs'
        { reqs := Req.getRange offset e :: rest.reqs,
          writes := (if offset = 0 then WOp.create (w.chunkData i)
                     else WOp.append (w.chunkData i)) :: rest.writes,
          fs := rest.fs, err := rest.err }
      else
        { reqs := [Req.getRange offset e], writes := [], fs := fs,
          err := some "temp write failed" }
    else
      { reqs := [Req.getRange offset e], writes := [], fs := fs,
        err := some "chunk transport error" }
  else
    { reqs := [], writes := [], fs := fs, err := none }
termination_by total - offset
decreasing_by
  have hc : 0 < CHUNK_SIZE := by decide
  omega

/-- The byte ranges requested by the chunk loop, in request order. -/
def chunkRanges (total offset : Nat) : List (Nat × Nat) :=
  if offset < total then
    (offset, min (offset + CHUNK_SIZE - 1) (total - 1)) ::
      chunkRanges total (CHUNK_SIZE + offset)
  else []
termination_by total - offset
decreasing_by
  have hc : 0 < CHUNK_SIZE := by decide
  omega

/-- `coversFrom start l total`: the ranges of `l` are consecutive starting
at `start` (each range begins right after the previous one ends), lie below
`total`, and together end exactly at `total - 1`. -/
def coversFrom : Nat → List (Nat × Nat) → Nat → Prop
  | start, [], total => start = total
  | start, (s, e) :: rest, total =>
    s = start ∧ start ≤ e ∧ e < total ∧ coversFrom (e + 1) rest total

/-- Result of one `downloadToCache` run. -/
structure DlResult where
  result : Except String String
  fs : DlFS
  reqs : List Req
  writes : List WOp

/-- The best-effort temp-file cleanup of the catch handler. -/
def dlCleanup (w : DlWorld) (tempName : String) (fs : DlFS) : DlFS :=
  if w.cleanupDeleteOk then fsSet fs tempName none else fs

/-- `downloadToCache(url, fileName)`: ensure the cache dir, HEAD probe for
`totalSize`, best-effort delete of a stale temp file, then either the
chunked transfer (`totalSize > 0 && totalSize > 50 * 1024 * 1024`) or a
single whole-body transfer (throwing unless status 200), writing only the
temp file `fileName + ".tmp"`; on success rename the temp file onto the
final name and return the uri.  Any failure runs the catch handler:
best-effort delete of the temp file, then the error is re-raised. -/
def downloadToCache (w : DlWorld) (fileName : String) (fs0 : DlFS) :
    DlResult :=
  let tempName := fileName ++ ".tmp"
  if !w.dirOk then
    { result := Except.error "mkdir failed", fs := dlCleanup w tempName fs0,
      reqs := [], writes := [] }
  else if !w.headOk then
    { result := Except.error "HEAD transport error",
      fs := dlCleanup w tempName fs0, reqs := [Req.head], writes := [] }
  else
    let totalSize := w.headSize
    let fs1 := if w.preDeleteOk then fsSet fs0 tempName none else fs0
    if 0 < totalSize ∧ 50 * 1024 * 1024 < totalSize then
      let out := chunkLoop w tempName totalSize 0 fs1
      match out.err with
      | some e =>
        { result := Except.error e, fs := dlCleanup w tempName out.fs,
          reqs := Req.head :: out.reqs, writes := out.writes }
      | none =>
        if w.renameOk then
          { result := Except.ok (w.uriOf fileName),
            fs := fsSet (fsSet out.fs fileName (out.fs tempName)) tempName none,
            reqs := Req.head :: out.reqs, writes := out.writes }
        else
          { result := Except.error "rename failed",
            fs := dlCleanup w tempName out.fs,
            reqs := Req.head :: out.reqs, writes := out.writes }
    else
      if w.singleOk then
        if w.singleStatus ≠ 200 then
          { result := Except.error ("Download failed: " ++ toString w.singleStatus),
            fs := dlCleanup w tempName fs1,
            reqs := [Req.head, Req.getPlain], writes := [] }
        else if w.singleWriteOk then
          let fs2 := fsSet fs1 tempName (some [w.singleData])
          if w.renameOk then
            { result := Except.ok (w.uriOf fileName),
              fs := fsSet (fsSet fs2 fileName (fs2 tempName)) tempName none,
              reqs := [Req.head, Req.getPlain],
              writes := [WOp.create w.singleData] }
          else
            { result := Except.error "rename failed",
              fs := dlCleanup w tempName fs2,
              reqs := [Req.head, Req.getPlain],
              writes := [WOp.create w.singleData] }
        else
          { result := Except.error "temp write failed",
            fs := dlCleanup w tempName fs1,
            reqs := [Req.head, Req.getPlain], writes := [] }
      else
        { result := Except.error "GET transport error",
          fs := dlCleanup w tempName fs1,
          reqs := [Req.head, Req.getPlain], writes := [] }

/-! ## Download queue model (the zustand download store)

The store runs on a single-threaded event loop: each store method executes
synchronously up to its first `await`, and nothing else can interleave
within such a synchronous segment.  The embedding therefore gives one
function per synchronous segment and drives them by events:

* `addTask` — the whole `addTask` call including the synchronous cascade
  through `processQueue` into the beginning of `startDownload`;
* `startDownload` — the synchronous segment of the method up to the
  `await` on the actual transfer: set `activeTaskId`, look the task up
  (resetting `activeTaskId` and returning when absent), mark it
  `downloading`, clear its error, and begin the network transfer;
* `finishActive` — the continuation that runs when the awaited transfer
  settles: `completeTask`/`failTask`, then the `finally` block (clear
  `activeTaskId`, re-run `processQueue`).  Between the transfer `await`
  and the best-effort cover-download `await` the store is not mutated, so
  the two awaits collapse into this single event, whose `ok` flag is the
  combined outcome of the `try` block.

The `started` field instruments the state with the ids whose transfer was
begun, in order: an entry is appended exactly when `startDownload` reaches
its network call.  Task fields that never influence control flow (bookId,
title, coverUrl, timestamp, ...) are elided; `progress` and `error` are
kept as the lifecycle operations write them. -/

/-- `DownloadTask.status`. -/
inductive TStatus where
  | pending
  | downloading
  | completed
  | failed
deriving DecidableEq, Repr

/-- A download task, restricted to the fields the queue logic reads or
writes. -/
structure Task where
  id : String
  status : TStatus
  progress : Nat
  error : Option String
deriving DecidableEq, Repr

/-- The store state: persisted task list, active-task marker, and the
instrumentation log of begun transfers (not part of the source state). -/
structure QState where
  tasks : List Task
  activeTaskId : Option String
  started : List String
deriving DecidableEq, Repr

/-- The store's initial state. -/
def initState : QState := { tasks := [], activeTaskId := none, started := [] }

/-- `completeTask(taskId)`: status `completed`, progress 100. -/
def completeTask (s : QState) (taskId : String) : QState :=
  { s with tasks := s.tasks.map (fun t =>
      if t.id == taskId then { t with status := TStatus.completed, progress := 100 }
      else t) }

/-- `failTask(taskId, error)`: status `failed` with the error message. -/
def failTask (s : QState) (taskId : String) (err : String) : QState :=
  { s with tasks := s.tasks.map (fun t =>
      if t.id == taskId then { t with status := TStatus.failed, error := some err }
      else t) }

/-- The synchronous segment of `startDownload(taskId)`: set
`activeTaskId := taskId`; if no task has this id, reset `activeTaskId` to
null and return; otherwise mark the task `downloading` with cleared error
and begin the transfer (recorded in `started`). -/
def startDownload (s : QState) (taskId : String) : QState :=
  let s1 := { s with activeTaskId := some taskId }
  match s1.tasks.find? (fun t => t.id == taskId) with
  | none => { s1 with activeTaskId := none }
  | some _ =>
    { s1 with
      tasks := s1.tasks.map (fun t =>
        if t.id == taskId then { t with status := TStatus.downloading, error := none }
        else t),
      started := s1.started ++ [taskId] }

/-- `processQueue()`: no-op when a task is active; otherwise start the
first `pending` task, if any. -/
def processQueue (s : QState) : QState :=
  if s.activeTaskId.isSome then s
  else
    match s.tasks.find? (fun t => t.status == TStatus.pending) with
    | none => s
    | some t => startDownload s t.id

/-- `retryTask(taskId)`: reset the task to `pending`, progress 0, cleared
error, then `processQueue()`. -/
def retryTask (s : QState) (taskId : String) : QState :=
  processQueue
    { s with tasks := s.tasks.map (fun t =>
        if t.id == taskId then
          { t with status := TStatus.pending, progress := 0, error := none }
        else t) }

/-- `addTask(taskInfo)`: no-op when a non-`failed` task with the id
exists; `retryTask` when a `failed` one exists; otherwise prepend a fresh
`pending` task and `processQueue()`. -/
def addTask (s : QState) (taskId : String) : QState :=
  if (s.tasks.find? (fun t => t.id == taskId && t.status != TStatus.failed)).isSome then
    s
  else if (s.tasks.find? (fun t => t.id == taskId && t.status == TStatus.failed)).isSome then
    retryTask s taskId
  else
    let newTask : Task :=
      { id := taskId, status := TStatus.pending, progress := 0, error := none }
    processQueue { s with tasks := newTask :: s.tasks }

/-- The continuation of `startDownload` once the awaited transfer settles:
`completeTask` on success or `failTask` on error, then the `finally` block
(`activeTaskId := null`; `processQueue()`).  A transfer is in flight
exactly when `activeTaskId` is set, and it is the transfer of that task,
so the continuation is dispatched on `activeTaskId`; with no transfer in
flight the event cannot occur and is a no-op. -/
def finishActive (s : QState) (ok : Bool) (errMsg : String) : QState :=
  match s.activeTaskId with
  | none => s
  | some id =>
    let s1 := if ok then completeTask s id else failTask s id errMsg
    processQueue { s1 with activeTaskId := none }

/-- The `set` part of `initializeQueue()`: demote every `downloading` task
to `pending` and clear the active-task marker. -/
def demoteDownloading (s : QState) : QState :=
  { s with
    tasks := s.tasks.map (fun t =>
      if t.status == TStatus.downloading then { t with status := TStatus.pending }
      else t),
    activeTaskId := none }

/-- `initializeQueue()`: demote orphaned `downloading` tasks, clear the
active-task marker, then `processQueue()`. -/
def initializeQueue (s : QState) : QState :=
  processQueue (demoteDownloading s)

/-- The externally triggered events of the store: an `addTask` call, or
the settling of the in-flight transfer. -/
inductive QEvent where
  | add (taskId : String) : QEvent
  | finish (ok : Bool) (errMsg : String) : QEvent
deriving DecidableEq, Repr

/-- One event step. -/
def qstep (s : QState) : QEvent → QState
  | QEvent.add taskId => addTask s taskId
  | QEvent.finish ok errMsg => finishActive s ok errMsg

/-- Run a sequence of events from a state. -/
def qrun (s : QState) (evs : List QEvent) : QState := evs.foldl qstep s

/-- Iterate successful transfer completions (each settles the in-flight
transfer, which by the `finally` block starts the next pending task). -/
def finishIter : Nat → QState → QState
  | 0, s => s
  | n + 1, s => finishIter n (finishActive s true "")

/-- Number of tasks currently in status `downloading`. -/
def downloadingCount (s : QState) : Nat :=
  s.tasks.countP (fun t => t.status == TStatus.downloading)

/-- The queue invariant: task ids are unique, no task is `downloading`
while the active-task marker is clear, and every `downloading` task is the
active one. -/
def QInv (s : QState) : Prop :=
  (s.tasks.map Task.id).Nodup ∧
  (s.activeTaskId = none → ∀ t ∈ s.tasks, t.status ≠ TStatus.downloading) ∧
  (∀ a, s.activeTaskId = some a →
    ∀ t ∈ s.tasks, t.status = TStatus.downloading → t.id = a)

/-- The event sequence of the FIFO scenario: add T1, T2, T3 in that order
with no other activity, then let the transfers settle. -/
def c1Events : List QEvent :=
  [QEvent.add "T1", QEvent.add "T2", QEvent.add "T3",
   QEvent.finish true "", QEvent.finish true "", QEvent.finish true ""]

/-! ## Theorems -/

theorem ne_append_tmp (n : String) : n ≠ n ++ ".tmp" := by
  intro h
  have hl := congrArg String.length h
  rw [String.length_append] at hl
  have h4 : (".tmp" : String).length = 4 := rfl
  omega

/-- C9: `getCachedFile` returns the file's uri when the cached file exists
with non-zero size (leaving the cache unchanged); a file of size 0 is
treated as corrupt: it is deleted (whenever the best-effort delete
succeeds) and the lookup reports absent, so the caller re-downloads. -/
theorem getCachedFile_spec (files : String → Option Nat)
    (uriOf : String → String) (deleteOk : Bool) (fileName : String) (sz : Nat)
    (hstat : files fileName = some sz) :
    (sz ≠ 0 →
      getCachedFile files uriOf deleteOk fileName = (some (uriOf fileName), files)) ∧
    (sz = 0 →
      (getCachedFile files uriOf deleteOk fileName).1 = none ∧
      (deleteOk = true →
        (getCachedFile files uriOf deleteOk fileName).2 fileName = none)) := by
  unfold getCachedFile
  rw [hstat]
  refine ⟨fun hne => by simp [hne], fun h0 => ?_⟩
  subst h0
  refine ⟨by simp, fun hdel => ?_⟩
  subst hdel
  simp

/-- Witness for C9 at a two-file cache: `a.mp3` of size 5 is served, the
zero-byte `b.mp3` is deleted and reported absent. -/
theorem getCachedFile_spec_witness :
    ((5 : Nat) ≠ 0 →
      getCachedFile
        (fun n => if n = "a.mp3" then some 5 else if n = "b.mp3" then some 0 else none)
        (fun n => "uri/" ++ n) true "a.mp3"
        = (some ("uri/" ++ "a.mp3"),
           fun n => if n = "a.mp3" then some 5 else if n = "b.mp3" then some 0 else none)) ∧
    (((0 : Nat) = 0 →
      (getCachedFile
        (fun n => if n = "a.mp3" then some 5 else if n = "b.mp3" then some 0 else none)
        (fun n => "uri/" ++ n) true "b.mp3").1 = none ∧
      (true = true →
        (getCachedFile
          (fun n => if n = "a.mp3" then some 5 else if n = "b.mp3" then some 0 else none)
          (fun n => "uri/" ++ n) true "b.mp3").2 "b.mp3" = none))) :=
  ⟨(getCachedFile_spec _ _ true "a.mp3" 5 (by simp)).1,
   (getCachedFile_spec _ _ true "b.mp3" 0 (by simp)).2⟩

/-- C10: `startDownload` on a task id matching no task resets the
active-task marker to null and returns: the task list is untouched and no
transfer is begun (the `started` log is unchanged — the lookup happens
before any network or filesystem operation of the method). -/
theorem startDownload_unknown_id (s : QState) (taskId : String)
    (h : ∀ t ∈ s.tasks, t.id ≠ taskId) :
    startDownload s taskId = { s with activeTaskId := none } := by
  unfold startDownload
  have hf : s.tasks.find? (fun t => t.id == taskId) = none := by
    rw [List.find?_eq_none]
    intro t ht
    simpa using h t ht
  simp [hf]

/-- Witness for C10: a store holding only task `A`, asked to start `B`. -/
theorem startDownload_unknown_id_witness :
    startDownload
      { tasks := [{ id := "A", status := TStatus.pending, progress := 0, error := none }],
        activeTaskId := some "A", started := ["A"] } "B"
      = { tasks := [{ id := "A", status := TStatus.pending, progress := 0, error := none }],
          activeTaskId := none, started := ["A"] } :=
  startDownload_unknown_id _ "B" (by decide)

/-- C1 counterexample: adding T1, T2, T3 in that order with no other
activity processes them in the order T1, T3, T2 — not T1, T2, T3:
`addTask` prepends the new task and `processQueue` starts the first
`pending` task of the list. -/
theorem fifo_counterexample :
    (qrun initState c1Events).started = ["T1", "T3", "T2"] ∧
    (qrun initState c1Events).started ≠ ["T1", "T2", "T3"] := by
  decide

/-- C1 amended: if `addTask` is called for three distinct tasks T1, T2, T3
in that order with no other activity, the queue processes them in the
order T1, then T3, then T2: `addTask` prepends the new task to the list
and `processQueue` starts the first `pending` task, so after the first
task (started immediately) the pending tasks are served newest-first, not
FIFO. -/
theorem addTask_processing_order_newest_first (a b c : String)
    (hab : a ≠ b) (hac : a ≠ c) (hbc : b ≠ c) :
    (qrun initState
      [QEvent.add a, QEvent.add b, QEvent.add c,
       QEvent.finish true "", QEvent.finish true "", QEvent.finish true ""]).started
      = [a, c, b] := by
  have hba : (b == a) = false := by simp [Ne.symm hab]
  have hca : (c == a) = false := by simp [Ne.symm hac]
  have hcb : (c == b) = false := by simp [Ne.symm hbc]
  have hab' : (a == b) = false := by simp [hab]
  have hac' : (a == c) = false := by simp [hac]
  have hbc' : (b == c) = false := by simp [hbc]
  simp [qrun, qstep, addTask, processQueue, startDownload, retryTask,
        finishActive, completeTask, failTask, initState,
        hba, hca, hcb, hab', hac', hbc',
        hab, hac, hbc, Ne.symm hab, Ne.symm hac, Ne.symm hbc]

/-- Witness for the amended C1 at the concrete ids T1, T2, T3. -/
theorem addTask_processing_order_newest_first_witness :
    (qrun initState
      [QEvent.add "T1", QEvent.add "T2", QEvent.add "T3",
       QEvent.finish true "", QEvent.finish true "", QEvent.finish true ""]).started
      = ["T1", "T3", "T2"] :=
  addTask_processing_order_newest_first "T1" "T2" "T3"
    (by decide) (by decide) (by decide)

theorem fsSet_same (fs : DlFS) (n : String) (v : Option (List String)) :
    fsSet fs n v n = v := by
  simp [fsSet]

theorem fsSet_other (fs : DlFS) (n : String) (v : Option (List String))
    (m : String) (h : m ≠ n) : fsSet fs n v m = fs m := by
  simp [fsSet, h]

theorem dlCleanup_other (w : DlWorld) (tempName : String) (fs : DlFS)
    (m : String) (h : m ≠ tempName) : dlCleanup w tempName fs m = fs m := by
  unfold dlCleanup
  split
  · exact fsSet_other fs tempName none m h
  · rfl

theorem dlCleanup_tmp (w : DlWorld) (tempName : String) (fs : DlFS)
    (h : w.cleanupDeleteOk = true) : dlCleanup w tempName fs tempName = none := by
  simp [dlCleanup, h, fsSet]

theorem ite_fsSet_other (b : Bool) (fs0 : DlFS) (tmp : String)
    (v : Option (List String)) (m : String) (h : m ≠ tmp) :
    (if b then fsSet fs0 tmp v else fs0) m = fs0 m := by
  cases b <;> simp [fsSet, h]

theorem chunk_size_pos : 0 < CHUNK_SIZE := by decide

theorem chunkLoop_fs_frame_aux (w : DlWorld) (tempName : String) (total : Nat)
    (m : String) (hm : m ≠ tempName) :
    ∀ k offset fs, total - offset ≤ k →
      (chunkLoop w tempName total offset fs).fs m = fs m := by
  intro k
  induction k with
  | zero =>
    intro offset fs hk
    rw [chunkLoop]
    have hlt : ¬ offset < total := by omega
    simp [hlt]
  | succ k ih =>
    intro offset fs hk
    rw [chunkLoop]
    by_cases h1 : offset < total
    · simp only [dif_pos h1]
      by_cases h2 : w.chunkOk (offset / CHUNK_SIZE)
      · simp only [h2, if_true]
        by_cases h3 : 400 ≤ w.chunkStatus (offset / CHUNK_SIZE)
        · simp [h3]
        · simp only [if_neg h3]
          by_cases h4 : w.chunkWriteOk (offset / CHUNK_SIZE)
          · simp only [h4, if_true]
            rw [ih (CHUNK_SIZE + offset) _
              (by have hc := chunk_size_pos; omega)]
            by_cases h0 : offset = 0 <;> simp [h0, fsSet, hm]
          · simp [h4]
      · simp [h2]
    · simp [h1]

/-- The chunk loop writes only the temp file. -/
theorem chunkLoop_fs_frame (w : DlWorld) (tempName : String) (total : Nat)
    (m : String) (hm : m ≠ tempName) (offset : Nat) (fs : DlFS) :
    (chunkLoop w tempName total offset fs).fs m = fs m :=
  chunkLoop_fs_frame_aux w tempName total m hm (total - offset) offset fs
    (Nat.le_refl _)

/-- Branch analysis of `downloadToCache`: a run either succeeds returning
the uri of the final file, or it fails having left the final-named file
exactly as it was and (whenever the best-effort cleanup delete succeeds)
having removed the temp file. -/
theorem downloadToCache_cases (w : DlWorld) (fileName : String) (fs0 : DlFS) :
    (downloadToCache w fileName fs0).result = Except.ok (w.uriOf fileName) ∨
    ((downloadToCache w fileName fs0).fs fileName = fs0 fileName ∧
     (w.cleanupDeleteOk = true →
       (downloadToCache w fileName fs0).fs (fileName ++ ".tmp") = none)) := by
  have hne : fileName ≠ fileName ++ ".tmp" := ne_append_tmp fileName
  simp only [downloadToCache]
  by_cases hbig : 0 < w.headSize ∧ 50 * 1024 * 1024 < w.headSize
  · rw [if_pos hbig]
    repeat' split
    all_goals first
      | exact Or.inl rfl
      | (refine Or.inr ⟨?_, fun hc => ?_⟩
         · simp only [dlCleanup_other _ _ _ _ hne, chunkLoop_fs_frame _ _ _ _ hne,
                      fsSet_other _ _ _ _ hne, ite_fsSet_other _ _ _ _ _ hne]
         · simp only [dlCleanup_tmp _ _ _ hc])
  · rw [if_neg hbig]
    repeat' split
    all_goals first
      | exact Or.inl rfl
      | (refine Or.inr ⟨?_, fun hc => ?_⟩
         · simp only [dlCleanup_other _ _ _ _ hne, chunkLoop_fs_frame _ _ _ _ hne,
                      fsSet_other _ _ _ _ hne, ite_fsSet_other _ _ _ _ _ hne]
         · simp only [dlCleanup_tmp _ _ _ hc])

/-- C4: if `downloadToCache` fails at any step, the temp file is
best-effort deleted (gone whenever that delete succeeds) and the error is
the one re-raised by the catch handler; the final-named file is never
touched by the failed call — it is exactly what it was before the call
(absent, or the prior valid version), because only the rename of the fully
written temp file ever creates the final name. -/
theorem download_failure_atomic (w : DlWorld) (fileName : String)
    (fs0 : DlFS) (e : String)
    (hfail : (downloadToCache w fileName fs0).result = Except.error e) :
    (downloadToCache w fileName fs0).fs fileName = fs0 fileName ∧
    (w.cleanupDeleteOk = true →
      (downloadToCache w fileName fs0).fs (fileName ++ ".tmp") = none) := by
  rcases downloadToCache_cases w fileName fs0 with hok | hfs
  · rw [hok] at hfail
    exact absurd hfail (by simp)
  · exact hfs

/-- Oracle of a failing run: the HEAD probe raises a transport error. -/
def wHeadFail : DlWorld :=
  { dirOk := true, headOk := false, headSize := 0,
    chunkOk := fun _ => true, chunkStatus := fun _ => 200,
    chunkData := fun _ => "", chunkWriteOk := fun _ => true,
    singleOk := true, singleStatus := 200, singleData := "",
    singleWriteOk := true, renameOk := true,
    preDeleteOk := true, cleanupDeleteOk := true, uriOf := fun n => n }

/-- Directory holding a prior valid version of `a.mp3` and a stale temp
file. -/
def fsPrior : DlFS := fun n =>
  if n = "a.mp3" then some ["old"]
  else if n = "a.mp3.tmp" then some ["stale"] else none

/-- Witness for C4: a failing HEAD probe leaves the prior `a.mp3` alone
and the temp file deleted. -/
theorem download_failure_atomic_witness :
    (downloadToCache wHeadFail "a.mp3" fsPrior).fs "a.mp3" = fsPrior "a.mp3" ∧
    (wHeadFail.cleanupDeleteOk = true →
      (downloadToCache wHeadFail "a.mp3" fsPrior).fs ("a.mp3" ++ ".tmp") = none) :=
  download_failure_atomic wHeadFail "a.mp3" fsPrior "HEAD transport error" rfl

theorem chunkRanges_start_le (total : Nat) :
    ∀ k offset, total - offset ≤ k →
      ∀ r ∈ chunkRanges total offset, offset ≤ r.1 := by
  intro k
  induction k with
  | zero =>
    intro offset hk r hr
    rw [chunkRanges] at hr
    have hlt : ¬ offset < total := by omega
    simp [hlt] at hr
  | succ k ih =>
    intro offset hk r hr
    rw [chunkRanges] at hr
    by_cases h1 : offset < total
    · simp only [if_pos h1, List.mem_cons] at hr
      rcases hr with hr | hr
      · subst hr; exact Nat.le_refl _
      · have := ih (CHUNK_SIZE + offset)
          (by have hc := chunk_size_pos; omega) r hr
        have hc := chunk_size_pos
        omega
    · simp [h1] at hr

theorem chunkRanges_width (total : Nat) :
    ∀ k offset, total - offset ≤ k →
      ∀ r ∈ chunkRanges total offset, r.2 + 1 ≤ r.1 + CHUNK_SIZE := by
  intro k
  induction k with
  | zero =>
    intro offset hk r hr
    rw [chunkRanges] at hr
    have hlt : ¬ offset < total := by omega
    simp [hlt] at hr
  | succ k ih =>
    intro offset hk r hr
    rw [chunkRanges] at hr
    by_cases h1 : offset < total
    · simp only [if_pos h1, List.mem_cons] at hr
      rcases hr with hr | hr
      · subst hr
        have hc := chunk_size_pos
        simp only []
        have : min (offset + CHUNK_SIZE - 1) (total - 1) ≤ offset + CHUNK_SIZE - 1 :=
          Nat.min_le_left _ _
        omega
      · exact ih (CHUNK_SIZE + offset) (by have hc := chunk_size_pos; omega) r hr
    · simp [h1] at hr

theorem chunkRanges_covers (total : Nat) :
    ∀ k offset, total - offset ≤ k → offset < total →
      coversFrom offset (chunkRanges total offset) total := by
  intro k
  induction k with
  | zero =>
    intro offset hk h1
    omega
  | succ k ih =>
    intro offset hk h1
    rw [chunkRanges]
    simp only [if_pos h1]
    have hc := chunk_size_pos
    unfold coversFrom
    refine ⟨rfl, ?_, ?_, ?_⟩
    · exact Nat.le_min.mpr ⟨by omega, by omega⟩
    · have := Nat.min_le_right (offset + CHUNK_SIZE - 1) (total - 1)
      omega
    · by_cases h2 : CHUNK_SIZE + offset < total
      · have hmin : min (offset + CHUNK_SIZE - 1) (total - 1) = offset + CHUNK_SIZE - 1 := by
          apply Nat.min_eq_left
          omega
        rw [hmin]
        have harg : offset + CHUNK_SIZE - 1 + 1 = CHUNK_SIZE + offset := by omega
        rw [harg]
        exact ih (CHUNK_SIZE + offset) (by omega) h2
      · have hmin : min (offset + CHUNK_SIZE - 1) (total - 1) = total - 1 := by
          apply Nat.min_eq_right
          omega
        rw [hmin]
        rw [chunkRanges]
        simp only [if_neg h2]
        unfold coversFrom
        omega

/-- The writes of the chunk loop, as a function of the requested ranges:
the chunk at offset 0 is a create, every other one an append. -/
def writeOfRange (w : DlWorld) (r : Nat × Nat) : WOp :=
  if r.1 = 0 then WOp.create (w.chunkData (r.1 / CHUNK_SIZE))
  else WOp.append (w.chunkData (r.1 / CHUNK_SIZE))

theorem chunkLoop_ok_aux (w : DlWorld) (tempName : String) (total : Nat)
    (hok : ∀ i, w.chunkOk i = true ∧ w.chunkStatus i < 400 ∧ w.chunkWriteOk i = true) :
    ∀ k offset fs, total - offset ≤ k →
      (chunkLoop w tempName total offset fs).err = none ∧
      (chunkLoop w tempName total offset fs).reqs
        = (chunkRanges total offset).map (fun r => Req.getRange r.1 r.2) ∧
      (chunkLoop w tempName total offset fs).writes
        = (chunkRanges total offset).map (writeOfRange w) := by
  intro k
  induction k with
  | zero =>
    intro offset fs hk
    have hlt : ¬ offset < total := by omega
    rw [chunkLoop, chunkRanges]
    simp [hlt]
  | succ k ih =>
    intro offset fs hk
    by_cases h1 : offset < total
    · have hi := hok (offset / CHUNK_SIZE)
      have hbad : ¬ 400 ≤ w.chunkStatus (offset / CHUNK_SIZE) := by omega
      rw [chunkLoop, chunkRanges]
      simp only [dif_pos h1, if_pos h1, hi.1, if_true, if_neg hbad, hi.2.2]
      have hrec := ih (CHUNK_SIZE + offset)
        (if offset = 0 then fsSet fs tempName (some [w.chunkData (offset / CHUNK_SIZE)])
         else fsSet fs tempName (some ((fs tempName).getD [] ++ [w.chunkData (offset / CHUNK_SIZE)])))
        (by have hc := chunk_size_pos; omega)
      refine ⟨hrec.1, ?_, ?_⟩
      · simp only [List.map_cons]
        rw [hrec.2.1]
      · simp only [List.map_cons]
        rw [hrec.2.2]
        unfold writeOfRange
        simp only []
    · have hlt : ¬ offset < total := h1
      rw [chunkLoop, chunkRanges]
      simp [hlt]

theorem chunkLoop_err_aux (w : DlWorld) (tempName : String) (total : Nat)
    (j : Nat)
    (hpre : ∀ i, i < j →
      w.chunkOk i = true ∧ w.chunkStatus i < 400 ∧ w.chunkWriteOk i = true)
    (hjok : w.chunkOk j = true) (hjbad : 400 ≤ w.chunkStatus j)
    (hjin : j * CHUNK_SIZE < total) :
    ∀ k c fs, j - c ≤ k → c ≤ j →
      (chunkLoop w tempName total (c * CHUNK_SIZE) fs).err
        = some ("Download chunk failed: " ++ toString (w.chunkStatus j)) := by
  have hc := chunk_size_pos
  intro k
  induction k with
  | zero =>
    intro c fs hk hcj
    have hceq : c = j := by omega
    subst hceq
    rw [chunkLoop]
    have h1 : c * CHUNK_SIZE < total := hjin
    have hdiv : c * CHUNK_SIZE / CHUNK_SIZE = c := Nat.mul_div_cancel c hc
    simp only [dif_pos h1, hdiv, hjok, if_true, if_pos hjbad]
  | succ k ih =>
    intro c fs hk hcj
    by_cases hceq : c = j
    · subst hceq
      rw [chunkLoop]
      have h1 : c * CHUNK_SIZE < total := hjin
      have hdiv : c * CHUNK_SIZE / CHUNK_SIZE = c := Nat.mul_div_cancel c hc
      simp only [dif_pos h1, hdiv, hjok, if_true, if_pos hjbad]
    · have hclt : c < j := by omega
      have hi := hpre c hclt
      have h1 : c * CHUNK_SIZE < total := by
        have : c * CHUNK_SIZE < j * CHUNK_SIZE :=
          (Nat.mul_lt_mul_right hc).mpr hclt
        omega
      have hdiv : c * CHUNK_SIZE / CHUNK_SIZE = c := Nat.mul_div_cancel c hc
      have hbad : ¬ 400 ≤ w.chunkStatus c := by omega
      rw [chunkLoop]
      simp only [dif_pos h1, hdiv, hi.1, if_true, if_neg hbad, hi.2.2]
      have harg : CHUNK_SIZE + c * CHUNK_SIZE = (c + 1) * CHUNK_SIZE := by ring
      rw [harg]
      exact ih (c + 1) _ (by omega) (by omega)

theorem chunkWrites_head (w : DlWorld) (total : Nat) (h0 : 0 < total) :
    ((chunkRanges total 0).map (writeOfRange w)).head?
      = some (WOp.create (w.chunkData 0)) := by
  have hranges : chunkRanges total 0
      = (0, min (0 + CHUNK_SIZE - 1) (total - 1))
          :: chunkRanges total (CHUNK_SIZE + 0) := by
    rw [chunkRanges]
    simp only [if_pos h0]
  rw [hranges]
  have hcons : (((0, min (0 + CHUNK_SIZE - 1) (total - 1))
      :: chunkRanges total (CHUNK_SIZE + 0)).map (writeOfRange w)).head?
      = some (writeOfRange w (0, min (0 + CHUNK_SIZE - 1) (total - 1))) := by
    simp only [List.map_cons, List.head?_cons]
  rw [hcons]
  rw [show writeOfRange w (0, min (0 + CHUNK_SIZE - 1) (total - 1))
        = WOp.create (w.chunkData 0) from by simp only [writeOfRange]; norm_num]

theorem mapWrite_mem_append (w : DlWorld) (total offs : Nat) (hpos : 0 < offs) :
    ∀ op ∈ (chunkRanges total offs).map (writeOfRange w),
      ∃ d, op = WOp.append d := by
  intro op hop
  rcases List.mem_map.mp hop with ⟨r, hr, hre⟩
  have hstart := chunkRanges_start_le total total offs (by omega) r hr
  have hr1 : ¬ r.1 = 0 := by omega
  exact ⟨w.chunkData (r.1 / CHUNK_SIZE),
    by rw [← hre]; simp only [writeOfRange, if_neg hr1]⟩

theorem chunkWrites_tail (w : DlWorld) (total : Nat) (h0 : 0 < total) :
    ∀ op ∈ ((chunkRanges total 0).map (writeOfRange w)).tail,
      ∃ d, op = WOp.append d := by
  have hranges : chunkRanges total 0
      = (0, min (0 + CHUNK_SIZE - 1) (total - 1))
          :: chunkRanges total (CHUNK_SIZE + 0) := by
    rw [chunkRanges]
    simp only [if_pos h0]
  intro op hop
  rw [hranges, List.map_cons, List.tail_cons] at hop
  exact mapWrite_mem_append w total (CHUNK_SIZE + 0)
    (by have hc := chunk_size_pos; omega) op hop

theorem downloadToCache_chunked_ok (w : DlWorld) (fileName : String) (fs0 : DlFS)
    (hbig : 50 * 1024 * 1024 < w.headSize)
    (hdir : w.dirOk = true) (hhead : w.headOk = true) (hren : w.renameOk = true)
    (hok : ∀ i, w.chunkOk i = true ∧ w.chunkStatus i < 400 ∧ w.chunkWriteOk i = true) :
    (downloadToCache w fileName fs0).reqs
        = Req.head :: (chunkRanges w.headSize 0).map (fun r => Req.getRange r.1 r.2) ∧
    coversFrom 0 (chunkRanges w.headSize 0) w.headSize ∧
    (∀ r ∈ chunkRanges w.headSize 0, r.2 + 1 ≤ r.1 + CHUNK_SIZE) ∧
    (downloadToCache w fileName fs0).writes
        = (chunkRanges w.headSize 0).map (writeOfRange w) ∧
    (downloadToCache w fileName fs0).writes.head?
        = some (WOp.create (w.chunkData 0)) ∧
    (∀ op ∈ (downloadToCache w fileName fs0).writes.tail, ∃ d, op = WOp.append d) ∧
    (downloadToCache w fileName fs0).result = Except.ok (w.uriOf fileName) := by
  have h0 : 0 < w.headSize := by omega
  have hcond : 0 < w.headSize ∧ 50 * 1024 * 1024 < w.headSize := ⟨h0, hbig⟩
  have hchunk := chunkLoop_ok_aux w (fileName ++ ".tmp") w.headSize hok w.headSize 0
    (if w.preDeleteOk then fsSet fs0 (fileName ++ ".tmp") none else fs0)
    (by omega)
  have hreqs : (downloadToCache w fileName fs0).reqs
      = Req.head :: (chunkRanges w.headSize 0).map (fun r => Req.getRange r.1 r.2) ∧
      (downloadToCache w fileName fs0).writes
        = (chunkRanges w.headSize 0).map (writeOfRange w) ∧
      (downloadToCache w fileName fs0).result = Except.ok (w.uriOf fileName) := by
    simp only [downloadToCache, hdir, hhead, Bool.not_true, Bool.false_eq_true,
               if_false]
    rw [if_pos hcond]
    simp only [hchunk.1, hren, if_true]
    exact ⟨by rw [hchunk.2.1], by rw [hchunk.2.2], trivial⟩
  refine ⟨hreqs.1, chunkRanges_covers w.headSize w.headSize 0 (by omega) h0,
          chunkRanges_width w.headSize w.headSize 0 (by omega), hreqs.2.1, ?_, ?_,
          hreqs.2.2⟩
  · rw [hreqs.2.1]
    exact chunkWrites_head w w.headSize h0
  · rw [hreqs.2.1]
    exact chunkWrites_tail w w.headSize h0

theorem downloadToCache_chunked_badStatus (w : DlWorld) (fileName : String)
    (fs0 : DlFS) (j : Nat) (hbig : 50 * 1024 * 1024 < w.headSize)
    (hdir : w.dirOk = true) (hhead : w.headOk = true)
    (hpre : ∀ i, i < j →
      w.chunkOk i = true ∧ w.chunkStatus i < 400 ∧ w.chunkWriteOk i = true)
    (hjok : w.chunkOk j = true) (hjbad : 400 ≤ w.chunkStatus j)
    (hjin : j * CHUNK_SIZE < w.headSize) :
    (downloadToCache w fileName fs0).result
      = Except.error ("Download chunk failed: " ++ toString (w.chunkStatus j)) := by
  have hcond : 0 < w.headSize ∧ 50 * 1024 * 1024 < w.headSize := ⟨by omega, hbig⟩
  have herr := chunkLoop_err_aux w (fileName ++ ".tmp") w.headSize j hpre hjok hjbad
    hjin j 0 (if w.preDeleteOk then fsSet fs0 (fileName ++ ".tmp") none else fs0)
    (by omega) (Nat.zero_le j)
  rw [Nat.zero_mul] at herr
  simp only [downloadToCache, hdir, hhead, Bool.not_true, Bool.false_eq_true, if_false]
  rw [if_pos hcond]
  simp only [herr]

theorem downloadToCache_single (w : DlWorld) (fileName : String) (fs0 : DlFS)
    (hsmall : ¬ (0 < w.headSize ∧ 50 * 1024 * 1024 < w.headSize))
    (hdir : w.dirOk = true) (hhead : w.headOk = true) :
    (downloadToCache w fileName fs0).reqs = [Req.head, Req.getPlain] ∧
    (w.singleOk = true → w.singleStatus = 200 → w.singleWriteOk = true →
      (downloadToCache w fileName fs0).writes = [WOp.create w.singleData]) := by
  simp only [downloadToCache, hdir, hhead, Bool.not_true, Bool.false_eq_true, if_false]
  rw [if_neg hsmall]
  constructor
  · repeat' split
    all_goals rfl
  · intro hso hst hwr
    simp only [hso, hst, hwr, if_true]
    repeat' split
    all_goals first | rfl | simp_all

/-- C6: `downloadToCache`'s two transfer modes.  (1) When the HEAD probe
reports a known total size above 50 MiB and every chunk succeeds, the
transfer is the sequence of ranged GETs over `chunkRanges`, whose ranges
partition bytes `0 .. size-1` in increasing order in pieces of at most
1 MiB (`CHUNK_SIZE`), the first chunk is written with create semantics and
every later chunk appended; (2) the first chunk answered with status ≥ 400
makes the run raise the download error for that status; (3) when the size
is unknown (absent or zero) or at most 50 MiB, the transfer is a single
whole-body GET whose body is written to the temp file in one create. -/
theorem download_transfer_modes (w : DlWorld) (fileName : String) (fs0 : DlFS) :
    (50 * 1024 * 1024 < w.headSize →
      w.dirOk = true → w.headOk = true → w.renameOk = true →
      (∀ i, w.chunkOk i = true ∧ w.chunkStatus i < 400 ∧ w.chunkWriteOk i = true) →
      ((downloadToCache w fileName fs0).reqs
          = Req.head :: (chunkRanges w.headSize 0).map (fun r => Req.getRange r.1 r.2) ∧
        coversFrom 0 (chunkRanges w.headSize 0) w.headSize ∧
        (∀ r ∈ chunkRanges w.headSize 0, r.2 + 1 ≤ r.1 + CHUNK_SIZE) ∧
        (downloadToCache w fileName fs0).writes
          = (chunkRanges w.headSize 0).map (writeOfRange w) ∧
        (downloadToCache w fileName fs0).writes.head?
          = some (WOp.create (w.chunkData 0)) ∧
        (∀ op ∈ (downloadToCache w fileName fs0).writes.tail, ∃ d, op = WOp.append d) ∧
        (downloadToCache w fileName fs0).result = Except.ok (w.uriOf fileName))) ∧
    (∀ j, 50 * 1024 * 1024 < w.headSize →
      w.dirOk = true → w.headOk = true →
      (∀ i, i < j → w.chunkOk i = true ∧ w.chunkStatus i < 400 ∧ w.chunkWriteOk i = true) →
      w.chunkOk j = true → 400 ≤ w.chunkStatus j → j * CHUNK_SIZE < w.headSize →
      (downloadToCache w fileName fs0).result
        = Except.error ("Download chunk failed: " ++ toString (w.chunkStatus j))) ∧
    (¬ (0 < w.headSize ∧ 50 * 1024 * 1024 < w.headSize) →
      w.dirOk = true → w.headOk = true →
      ((downloadToCache w fileName fs0).reqs = [Req.head, Req.getPlain] ∧
       (w.singleOk = true → w.singleStatus = 200 → w.singleWriteOk = true →
         (downloadToCache w fileName fs0).writes = [WOp.create w.singleData]))) :=
  ⟨fun hbig hdir hhead hren hok =>
     downloadToCache_chunked_ok w fileName fs0 hbig hdir hhead hren hok,
   fun j hbig hdir hhead hpre hjok hjbad hjin =>
     downloadToCache_chunked_badStatus w fileName fs0 j hbig hdir hhead hpre
       hjok hjbad hjin,
   fun hsmall hdir hhead =>
     downloadToCache_single w fileName fs0 hsmall hdir hhead⟩

/-- Oracle of a successful chunked run: known size 50 MiB + 1 byte, every
chunk delivered with status 200. -/
def wBigOk : DlWorld :=
  { dirOk := true, headOk := true, headSize := 50 * 1024 * 1024 + 1,
    chunkOk := fun _ => true, chunkStatus := fun _ => 200,
    chunkData := fun i => toString i, chunkWriteOk := fun _ => true,
    singleOk := true, singleStatus := 200, singleData := "body",
    singleWriteOk := true, renameOk := true,
    preDeleteOk := true, cleanupDeleteOk := true, uriOf := fun n => n }

/-- Oracle of a chunked run whose fourth chunk (index 3) answers 404. -/
def wBigBad3 : DlWorld :=
  { wBigOk with chunkStatus := fun i => if i < 3 then 200 else 404 }

/-- Oracle of a run with unknown size (no Content-Length). -/
def wSmall : DlWorld := { wBigOk with headSize := 0 }

/-- Witness for C6: the three transfer-mode conclusions at concrete
oracles — a successful 50 MiB + 1 chunked run, a chunked run failing at
chunk 3 with status 404, and an unknown-size single-shot run. -/
theorem download_transfer_modes_witness :
    ((downloadToCache wBigOk "a.mp3" (fun _ => none)).reqs
        = Req.head :: (chunkRanges wBigOk.headSize 0).map (fun r => Req.getRange r.1 r.2) ∧
      coversFrom 0 (chunkRanges wBigOk.headSize 0) wBigOk.headSize ∧
      (∀ r ∈ chunkRanges wBigOk.headSize 0, r.2 + 1 ≤ r.1 + CHUNK_SIZE) ∧
      (downloadToCache wBigOk "a.mp3" (fun _ => none)).writes
        = (chunkRanges wBigOk.headSize 0).map (writeOfRange wBigOk) ∧
      (downloadToCache wBigOk "a.mp3" (fun _ => none)).writes.head?
        = some (WOp.create (wBigOk.chunkData 0)) ∧
      (∀ op ∈ (downloadToCache wBigOk "a.mp3" (fun _ => none)).writes.tail,
        ∃ d, op = WOp.append d) ∧
      (downloadToCache wBigOk "a.mp3" (fun _ => none)).result
        = Except.ok (wBigOk.uriOf "a.mp3")) ∧
    (downloadToCache wBigBad3 "a.mp3" (fun _ => none)).result
      = Except.error ("Download chunk failed: " ++ toString (wBigBad3.chunkStatus 3)) ∧
    ((downloadToCache wSmall "a.mp3" (fun _ => none)).reqs
        = [Req.head, Req.getPlain] ∧
      (wSmall.singleOk = true → wSmall.singleStatus = 200 →
        wSmall.singleWriteOk = true →
        (downloadToCache wSmall "a.mp3" (fun _ => none)).writes
          = [WOp.create wSmall.singleData])) :=
  ⟨(download_transfer_modes wBigOk "a.mp3" (fun _ => none)).1
      (by decide) rfl rfl rfl (fun i => ⟨rfl, (by decide : (200 : Nat) < 400), rfl⟩),
   (download_transfer_modes wBigBad3 "a.mp3" (fun _ => none)).2.1 3
      (by decide) rfl rfl (by decide) rfl (by decide) (by decide),
   (download_transfer_modes wSmall "a.mp3" (fun _ => none)).2.2
      (by decide) rfl rfl⟩

theorem cacheSize_nil : cacheSize [] = 0 := rfl

theorem cacheSize_cons (f : FileEntry) (l : List FileEntry) :
    cacheSize (f :: l) = f.size + cacheSize l := by
  simp [cacheSize]

theorem cacheSize_append (l1 l2 : List FileEntry) :
    cacheSize (l1 ++ l2) = cacheSize l1 + cacheSize l2 := by
  simp [cacheSize]

theorem cacheSize_perm (l1 l2 : List FileEntry) (h : l1.Perm l2) :
    cacheSize l1 = cacheSize l2 :=
  (h.map FileEntry.size).sum_eq

theorem cacheSize_sublist_le (l1 l2 : List FileEntry) (h : l1.Sublist l2) :
    cacheSize l1 ≤ cacheSize l2 := by
  induction h with
  | slnil => exact Nat.le_refl _
  | cons f _ ih =>
    rw [cacheSize_cons]
    omega
  | cons₂ f _ ih =>
    rw [cacheSize_cons, cacheSize_cons]
    omega

theorem feSizePass_split (cur : Nat) (l : List FileEntry) :
    (feSizePass cur l).1 ++ (feSizePass cur l).2 = l := by
  induction l generalizing cur with
  | nil => simp [feSizePass]
  | cons f rest ih =>
    rw [feSizePass]
    split
    · simp
    · simp [ih]

theorem feSizePass_len (cur : Nat) (l : List FileEntry) :
    (feSizePass cur l).2.length ≤ l.length := by
  have h := congrArg List.length (feSizePass_split cur l)
  rw [List.length_append] at h
  omega

theorem feSizePass_size (cur : Nat) (l : List FileEntry)
    (hc : cur = cacheSize l) :
    cacheSize (feSizePass cur l).2 ≤ MAX_CACHE_SIZE_BYTES := by
  induction l generalizing cur with
  | nil => simp [feSizePass, cacheSize_nil, MAX_CACHE_SIZE_BYTES]
  | cons f rest ih =>
    rw [feSizePass]
    split
    case isTrue h =>
      simpa [hc] using h
    case isFalse h =>
      apply ih
      rw [hc, cacheSize_cons]
      omega

theorem foldl_sub_sizes (l : List FileEntry) (r : Nat) :
    l.foldl (fun c f => c - f.size) (cacheSize l + r) = r := by
  induction l generalizing r with
  | nil => simp [cacheSize_nil]
  | cons f rest ih =>
    rw [List.foldl_cons, cacheSize_cons]
    have harith : f.size + cacheSize rest + r - f.size = cacheSize rest + r := by
      omega
    rw [harith, ih]

theorem selectEvictions_split (v : List FileEntry) (size : Nat) :
    (selectEvictions v size).1 ++ (selectEvictions v size).2
      = List.insertionSort mtimeLE v := by
  simp only [selectEvictions]
  split
  · rw [List.append_assoc, feSizePass_split, List.take_append_drop]
  · exact feSizePass_split _ _

theorem selectEvictions_len (v : List FileEntry) (size : Nat) :
    (selectEvictions v size).2.length ≤ MAX_FILES := by
  simp only [selectEvictions]
  split
  case isTrue h =>
    have hlen := feSizePass_len
      ((List.take ((List.insertionSort mtimeLE v).length - MAX_FILES)
        (List.insertionSort mtimeLE v)).foldl (fun c f => c - f.size) size)
      (List.drop ((List.insertionSort mtimeLE v).length - MAX_FILES)
        (List.insertionSort mtimeLE v))
    rw [List.length_drop] at hlen
    show (feSizePass
      ((List.take ((List.insertionSort mtimeLE v).length - MAX_FILES)
        (List.insertionSort mtimeLE v)).foldl (fun c f => c - f.size) size)
      (List.drop ((List.insertionSort mtimeLE v).length - MAX_FILES)
        (List.insertionSort mtimeLE v))).2.length ≤ MAX_FILES
    omega
  case isFalse h =>
    have hlen := feSizePass_len size (List.insertionSort mtimeLE v)
    omega

theorem selectEvictions_size (v : List FileEntry) :
    cacheSize (selectEvictions v (cacheSize v)).2 ≤ MAX_CACHE_SIZE_BYTES := by
  have hperm : cacheSize v = cacheSize (List.insertionSort mtimeLE v) :=
    cacheSize_perm _ _ (List.perm_insertionSort mtimeLE v).symm
  simp only [selectEvictions]
  split
  case isTrue h =>
    apply feSizePass_size
    have hsd : cacheSize (List.insertionSort mtimeLE v)
        = cacheSize (List.take ((List.insertionSort mtimeLE v).length - MAX_FILES)
            (List.insertionSort mtimeLE v))
          + cacheSize (List.drop ((List.insertionSort mtimeLE v).length - MAX_FILES)
            (List.insertionSort mtimeLE v)) := by
      rw [← cacheSize_append, List.take_append_drop]
    rw [hperm, hsd, foldl_sub_sizes]
  case isFalse h =>
    exact feSizePass_size _ _ hperm

theorem runDeletes_closed (deleteOk : String → Bool) :
    ∀ del fs, runDeletes deleteOk del fs
      = fs.filter (fun g =>
          !(((del.take (del.findIdx (fun f => !(deleteOk f.name)))).map
              FileEntry.name).contains g.name)) := by
  intro del
  induction del with
  | nil =>
    intro fs
    simp [runDeletes]
  | cons f rest ih =>
    intro fs
    by_cases hok : deleteOk f.name
    · rw [runDeletes]
      rw [if_pos hok, ih]
      rw [List.filter_filter]
      have hidx : (f :: rest).findIdx (fun f => !(deleteOk f.name))
          = rest.findIdx (fun f => !(deleteOk f.name)) + 1 := by
        rw [List.findIdx_cons]
        simp [hok]
      rw [hidx, List.take_succ_cons, List.map_cons]
      apply List.filter_congr
      intro g _
      rw [List.contains_cons]
      simp only [Bool.not_or, Bool.and_comm]
      rfl
    · rw [runDeletes]
      rw [if_neg hok]
      have hidx : (f :: rest).findIdx (fun f => !(deleteOk f.name)) = 0 := by
        rw [List.findIdx_cons]
        simp [hok]
      rw [hidx]
      simp

theorem findIdx_eq_length_of_allOk (deleteOk : String → Bool)
    (hok : ∀ n, deleteOk n = true) (del : List FileEntry) :
    del.findIdx (fun f => !(deleteOk f.name)) = del.length := by
  induction del with
  | nil => simp
  | cons f rest ih =>
    rw [List.findIdx_cons]
    simp [hok, ih]

theorem runDeletes_allOk (deleteOk : String → Bool)
    (hok : ∀ n, deleteOk n = true) (del : List FileEntry)
    (fs : List FileEntry) :
    runDeletes deleteOk del fs
      = fs.filter (fun g => !((del.map FileEntry.name).contains g.name)) := by
  rw [runDeletes_closed, findIdx_eq_length_of_allOk deleteOk hok,
      List.take_length]

theorem validFiles_filter (fs : List FileEntry) (p : FileEntry → Bool) :
    validFiles (fs.filter p) = (validFiles fs).filter p := by
  unfold validFiles
  rw [List.filter_filter, List.filter_filter]
  apply List.filter_congr
  intro a _
  rw [Bool.and_comm]

/-- C3: after an eviction pass in which every delete succeeds, the total
size of the non-temp cached files is at most 2 GiB
(`MAX_CACHE_SIZE_BYTES`) and their count at most 50 (`MAX_FILES`),
whatever sizes and modification times the files had before the pass. -/
theorem eviction_bound (deleteOk : String → Bool) (fs : List FileEntry)
    (hok : ∀ n, deleteOk n = true) :
    cacheSize (validFiles (ensureCacheLimits deleteOk fs)) ≤ MAX_CACHE_SIZE_BYTES ∧
    (validFiles (ensureCacheLimits deleteOk fs)).length ≤ MAX_FILES := by
  by_cases htr : MAX_CACHE_SIZE_BYTES < cacheSize (validFiles fs)
      ∨ MAX_FILES < (validFiles fs).length
  case neg =>
    have heq : ensureCacheLimits deleteOk fs = fs := by
      simp only [ensureCacheLimits]
      rw [if_neg htr]
    rw [heq]
    push_neg at htr
    exact ⟨htr.1, htr.2⟩
  case pos =>
    have heq : ensureCacheLimits deleteOk fs
        = runDeletes deleteOk
            (selectEvictions (validFiles fs) (cacheSize (validFiles fs))).1 fs := by
      simp only [ensureCacheLimits]
      rw [if_pos htr]
    rw [heq, runDeletes_allOk deleteOk hok, validFiles_filter]
    have hsplit := selectEvictions_split (validFiles fs) (cacheSize (validFiles fs))
    set sel := selectEvictions (validFiles fs) (cacheSize (validFiles fs)) with hselDef
    set p : FileEntry → Bool :=
      fun g => !((sel.1.map FileEntry.name).contains g.name) with hp
    have hperm : (validFiles fs).Perm (sel.1 ++ sel.2) := by
      rw [hsplit]
      exact (List.perm_insertionSort mtimeLE (validFiles fs)).symm
    have hfilterPerm : ((validFiles fs).filter p).Perm ((sel.1 ++ sel.2).filter p) :=
      hperm.filter p
    have hnil : sel.1.filter p = [] := by
      rw [List.filter_eq_nil_iff]
      intro a ha
      simp only [hp, Bool.not_eq_true', Bool.not_eq_false]
      have : a.name ∈ sel.1.map FileEntry.name := List.mem_map_of_mem FileEntry.name ha
      simpa using this
    have happ : (sel.1 ++ sel.2).filter p = sel.2.filter p := by
      rw [List.filter_append, hnil, List.nil_append]
    have hsub : (sel.2.filter p).Sublist sel.2 := List.filter_sublist _
    constructor
    · calc cacheSize ((validFiles fs).filter p)
          = cacheSize ((sel.1 ++ sel.2).filter p) := cacheSize_perm _ _ hfilterPerm
        _ = cacheSize (sel.2.filter p) := by rw [happ]
        _ ≤ cacheSize sel.2 := cacheSize_sublist_le _ _ hsub
        _ ≤ MAX_CACHE_SIZE_BYTES := selectEvictions_size (validFiles fs)
    · calc ((validFiles fs).filter p).length
          = ((sel.1 ++ sel.2).filter p).length := hfilterPerm.length_eq
        _ = (sel.2.filter p).length := by rw [happ]
        _ ≤ sel.2.length := hsub.length_le
        _ ≤ MAX_FILES := selectEvictions_len (validFiles fs) _

/-- Witness for C3 at the concrete 52-file cache with all deletes
succeeding. -/
theorem eviction_bound_witness :
    cacheSize (validFiles (ensureCacheLimits (fun _ => true) fs52))
        ≤ MAX_CACHE_SIZE_BYTES ∧
    (validFiles (ensureCacheLimits (fun _ => true) fs52)).length ≤ MAX_FILES :=
  eviction_bound (fun _ => true) fs52 (fun _ => rfl)

/-- C5 counterexample: on the 52-file cache `fs52` the eviction pass
selects the two oldest files `f0` and `f1` for deletion; the delete of
`f0` fails, and `f1` — although selected — is not deleted: the pass aborts
and all 52 files remain.  The claim says the remaining selected files are
still deleted; they are not. -/
theorem eviction_delete_error_counterexample :
    (selectEvictions (validFiles fs52) (cacheSize (validFiles fs52))).1.map
        FileEntry.name = ["f0", "f1"] ∧
    failF0 "f0" = false ∧
    (ensureCacheLimits failF0 fs52).length = 52 ∧
    ((ensureCacheLimits failF0 fs52).map FileEntry.name).contains "f1" = true := by
  decide

/-- C5 amended: a storage error while deleting one selected file is caught
by the handler wrapping the whole eviction pass, so it is never fatal to
the caller (the pass returns normally, the error only logged) — but the
deletion loop has no per-file handler, so the error aborts the rest of the
pass: exactly the selected files before the first failing one are deleted,
and the files selected after it remain. -/
theorem eviction_delete_error_aborts (deleteOk : String → Bool)
    (fs : List FileEntry)
    (htr : MAX_CACHE_SIZE_BYTES < cacheSize (validFiles fs)
      ∨ MAX_FILES < (validFiles fs).length) :
    ensureCacheLimits deleteOk fs
      = fs.filter (fun g =>
          !((((selectEvictions (validFiles fs) (cacheSize (validFiles fs))).1.take
              ((selectEvictions (validFiles fs) (cacheSize (validFiles fs))).1.findIdx
                (fun f => !(deleteOk f.name)))).map FileEntry.name).contains g.name)) := by
  simp only [ensureCacheLimits]
  rw [if_pos htr]
  exact runDeletes_closed deleteOk _ fs

/-- Witness for the amended C5 at the 52-file cache with the delete of
`f0` failing. -/
theorem eviction_delete_error_aborts_witness :
    ensureCacheLimits failF0 fs52
      = fs52.filter (fun g =>
          !((((selectEvictions (validFiles fs52) (cacheSize (validFiles fs52))).1.take
              ((selectEvictions (validFiles fs52) (cacheSize (validFiles fs52))).1.findIdx
                (fun f => !(failF0 f.name)))).map FileEntry.name).contains g.name)) :=
  eviction_delete_error_aborts failF0 fs52 (by decide)

theorem feSizePass_le (cur : Nat) (l : List FileEntry)
    (h : cur ≤ MAX_CACHE_SIZE_BYTES) : feSizePass cur l = ([], l) := by
  cases l with
  | nil => simp [feSizePass]
  | cons f rest => simp [feSizePass, h]

/-- C7: on a cache of 51 non-temp files of 1 MiB each with distinct
modification times (and distinct names), eviction triggers on the count
limit, the count pass removes the single oldest entry, and the size pass
removes nothing (50 MiB is far below the 2 GiB limit): exactly the file
with minimal mtime is deleted and 50 files remain. -/
theorem eviction_51_oldest (deleteOk : String → Bool) (fs : List FileEntry)
    (hok : ∀ n, deleteOk n = true)
    (hnames : ((validFiles fs).map FileEntry.name).Nodup)
    (hlen : (validFiles fs).length = 51)
    (hsz : ∀ f ∈ validFiles fs, f.size = 1048576)
    (hmt : (validFiles fs).Pairwise (fun a b => a.mtime ≠ b.mtime)) :
    ∃ m ∈ validFiles fs,
      (∀ f ∈ validFiles fs, f ≠ m → m.mtime < f.mtime) ∧
      ensureCacheLimits deleteOk fs = fs.filter (fun g => g.name != m.name) ∧
      (validFiles (ensureCacheLimits deleteOk fs)).length = 50 := by
  have hperm : (List.insertionSort mtimeLE (validFiles fs)).Perm (validFiles fs) :=
    List.perm_insertionSort mtimeLE (validFiles fs)
  have hsl : (List.insertionSort mtimeLE (validFiles fs)).length = 51 := by
    rw [hperm.length_eq, hlen]
  obtain ⟨m, ts, hms⟩ :
      ∃ m ts, List.insertionSort mtimeLE (validFiles fs) = m :: ts := by
    cases hcase : List.insertionSort mtimeLE (validFiles fs) with
    | nil => rw [hcase] at hsl; simp at hsl
    | cons a l => exact ⟨a, l, rfl⟩
  have hts : ts.length = 50 := by
    rw [hms] at hsl
    simpa using hsl
  have hmem : m ∈ validFiles fs := by
    apply hperm.mem_iff.mp
    rw [hms]
    exact List.mem_cons_self m ts
  have hmsize : m.size = 1048576 := hsz m hmem
  have hsize : cacheSize (validFiles fs) = 51 * 1048576 := by
    unfold cacheSize
    rw [List.sum_eq_card_nsmul ((validFiles fs).map FileEntry.size) 1048576 ?_]
    · rw [List.length_map, hlen]
      simp
    · intro x hx
      rcases List.mem_map.mp hx with ⟨f, hf, hfx⟩
      rw [← hfx]
      exact hsz f hf
  have hsel : selectEvictions (validFiles fs) (cacheSize (validFiles fs))
      = ([m], ts) := by
    simp only [selectEvictions]
    rw [hms, hsize]
    rw [List.length_cons, hts]
    rw [if_pos (by norm_num [MAX_FILES])]
    norm_num [MAX_FILES]
    rw [hmsize]
    rw [feSizePass_le _ _ (by norm_num [MAX_CACHE_SIZE_BYTES])]
    exact ⟨rfl, rfl⟩
  have htrig : MAX_CACHE_SIZE_BYTES < cacheSize (validFiles fs)
      ∨ MAX_FILES < (validFiles fs).length := by
    right
    rw [hlen]
    norm_num [MAX_FILES]
  have hresult : ensureCacheLimits deleteOk fs
      = fs.filter (fun g => g.name != m.name) := by
    simp only [ensureCacheLimits]
    rw [if_pos htrig, hsel]
    rw [runDeletes_allOk deleteOk hok]
    apply List.filter_congr
    intro g _
    by_cases hgm : g.name = m.name <;> simp [hgm]
  have hsorted : List.Sorted mtimeLE (m :: ts) := by
    rw [← hms]
    exact List.sorted_insertionSort mtimeLE (validFiles fs)
  have hmin : ∀ f ∈ validFiles fs, f ≠ m → m.mtime < f.mtime := by
    intro f hf hne
    have hfs : f ∈ m :: ts := by
      rw [← hms]
      exact hperm.mem_iff.mpr hf
    have hle : m.mtime ≤ f.mtime := by
      rcases List.mem_cons.mp hfs with h | h
      · rw [h]
      · exact (List.sorted_cons.mp hsorted).1 f h
    have hneq : m.mtime ≠ f.mtime := by
      have hsymm : Symmetric (fun a b : FileEntry => a.mtime ≠ b.mtime) :=
        fun a b h => h.symm
      exact hmt.forall hsymm hmem hf (fun h => hne h.symm)
    omega
  have hnamesSorted : ((m :: ts).map FileEntry.name).Nodup := by
    rw [← hms]
    exact ((hperm.map FileEntry.name).nodup_iff).mpr hnames
  have hcount : (validFiles (ensureCacheLimits deleteOk fs)).length = 50 := by
    rw [hresult, validFiles_filter]
    have hpermf : ((validFiles fs).filter (fun g => g.name != m.name)).Perm
        ((m :: ts).filter (fun g => g.name != m.name)) := by
      refine List.Perm.filter _ ?_
      rw [← hms]
      exact hperm.symm
    rw [hpermf.length_eq]
    have hm : (m.name != m.name) = false := by simp
    rw [List.filter_cons, hm]
    simp only [Bool.false_eq_true, if_false]
    have hts_filter : ts.filter (fun g => g.name != m.name) = ts := by
      apply List.filter_eq_self.mpr
      intro g hg
      have : g.name ≠ m.name := by
        intro heq
        have hmn : m.name ∈ ts.map FileEntry.name := by
          rw [← heq]
          exact List.mem_map_of_mem FileEntry.name hg
        exact (List.nodup_cons.mp hnamesSorted).1 hmn
      simp [this]
    rw [hts_filter, hts]
  exact ⟨m, hmem, hmin, hresult, hcount⟩

/-- Witness for C7: 51 files `g0`..`g50` of 1 MiB each with ascending
mtimes. -/
theorem eviction_51_oldest_witness :
    ∃ m ∈ validFiles ((List.range 51).map
        (fun i => ⟨"g" ++ toString i, 1048576, i⟩ : Nat → FileEntry)),
      (∀ f ∈ validFiles ((List.range 51).map
          (fun i => ⟨"g" ++ toString i, 1048576, i⟩ : Nat → FileEntry)),
        f ≠ m → m.mtime < f.mtime) ∧
      ensureCacheLimits (fun _ => true)
          ((List.range 51).map (fun i => ⟨"g" ++ toString i, 1048576, i⟩ : Nat → FileEntry))
        = ((List.range 51).map (fun i => ⟨"g" ++ toString i, 1048576, i⟩ : Nat → FileEntry)).filter
            (fun g => g.name != m.name) ∧
      (validFiles (ensureCacheLimits (fun _ => true)
          ((List.range 51).map (fun i => ⟨"g" ++ toString i, 1048576, i⟩ : Nat → FileEntry)))).length
        = 50 :=
  eviction_51_oldest (fun _ => true) _ (fun _ => rfl)
    (by decide) (by decide) (by decide) (by decide)

theorem map_ids_eq (l : List Task) (f : Task → Task)
    (h : ∀ t, (f t).id = t.id) :
    (l.map f).map Task.id = l.map Task.id := by
  induction l with
  | nil => rfl
  | cons t rest ih => simp [h t, ih]

theorem qinv_startDownload (s : QState) (taskId : String)
    (hinv : QInv s) (hact : s.activeTaskId = none) :
    QInv (startDownload s taskId) := by
  obtain ⟨hnd, hnone, _⟩ := hinv
  simp only [startDownload]
  cases hfind : List.find? (fun t => t.id == taskId) s.tasks with
  | none =>
    exact ⟨hnd, fun _ t ht => hnone hact t ht, fun a ha => by simp at ha⟩
  | some t0 =>
    have hid : ∀ t : Task,
        ((fun t => if t.id == taskId
            then { t with status := TStatus.downloading, error := none }
            else t) t).id = t.id := by
      intro t
      by_cases h : (t.id == taskId) = true <;> simp [h]
    refine ⟨?_, ?_, ?_⟩
    · show ((s.tasks.map _).map Task.id).Nodup
      rw [map_ids_eq _ _ hid]
      exact hnd
    · intro h
      simp at h
    · intro a ha t ht hdl
      have ha' : taskId = a := by simpa using ha
      rcases List.mem_map.mp ht with ⟨u, hu, hut⟩
      by_cases h : (u.id == taskId) = true
      · rw [← hut, hid u]
        rw [beq_iff_eq] at h
        rw [h, ha']
      · rw [← hut] at hdl
        simp only [h, if_false] at hdl
        exact absurd hdl (hnone hact u hu)

theorem qinv_processQueue (s : QState) (hinv : QInv s) :
    QInv (processQueue s) := by
  simp only [processQueue]
  cases hact : s.activeTaskId with
  | some a => simp [hinv]
  | none =>
    simp only [Option.isSome_none, Bool.false_eq_true, if_false]
    cases hfind : List.find? (fun t => t.status == TStatus.pending) s.tasks with
    | none => exact hinv
    | some t => exact qinv_startDownload s t.id hinv hact

theorem qinv_finishActive (s : QState) (ok : Bool) (err : String)
    (hinv : QInv s) : QInv (finishActive s ok err) := by
  obtain ⟨hnd, _, hsome⟩ := hinv
  simp only [finishActive]
  cases hact : s.activeTaskId with
  | none => exact ⟨hnd, fun h t ht => ((⟨hnd, by assumption, hsome⟩ : QInv s).2.1) h t ht, hsome⟩
  | some a =>
    apply qinv_processQueue
    cases ok <;>
    · simp only [completeTask, failTask, Bool.false_eq_true, if_false, if_true]
      refine ⟨?_, ?_, ?_⟩
      · show ((s.tasks.map _).map Task.id).Nodup
        rw [map_ids_eq]
        · exact hnd
        · intro t
          by_cases h : (t.id == a) = true <;> simp [h]
      · intro _ t ht hdl
        rcases List.mem_map.mp ht with ⟨u, hu, hut⟩
        by_cases h : (u.id == a) = true
        · rw [← hut] at hdl
          simp [h] at hdl
        · rw [← hut] at hdl
          simp only [h, if_false] at hdl
          have := hsome a hact u hu hdl
          rw [beq_iff_eq] at h
          exact absurd this h
      · intro b hb
        simp at hb

theorem qinv_retryTask (s : QState) (taskId : String) (hinv : QInv s) :
    QInv (retryTask s taskId) := by
  obtain ⟨hnd, hnone, hsome⟩ := hinv
  simp only [retryTask]
  apply qinv_processQueue
  refine ⟨?_, ?_, ?_⟩
  · show ((s.tasks.map _).map Task.id).Nodup
    rw [map_ids_eq]
    · exact hnd
    · intro t
      by_cases h : (t.id == taskId) = true <;> simp [h]
  · intro hact t ht
    rcases List.mem_map.mp ht with ⟨u, hu, hut⟩
    by_cases h : (u.id == taskId) = true
    · rw [← hut]
      simp [h]
    · rw [← hut]
      simp only [h, if_false]
      exact hnone hact u hu
  · intro a ha t ht hdl
    rcases List.mem_map.mp ht with ⟨u, hu, hut⟩
    by_cases h : (u.id == taskId) = true
    · rw [← hut] at hdl
      simp [h] at hdl
    · rw [← hut] at hdl ⊢
      simp only [h, if_false] at hdl ⊢
      exact hsome a ha u hu hdl

theorem qinv_addTask (s : QState) (taskId : String) (hinv : QInv s) :
    QInv (addTask s taskId) := by
  simp only [addTask]
  split
  case isTrue h => exact hinv
  case isFalse h1 =>
    split
    case isTrue h2 => exact qinv_retryTask s taskId hinv
    case isFalse h2 =>
      obtain ⟨hnd, hnone, hsome⟩ := hinv
      apply qinv_processQueue
      have hnotin : ∀ t ∈ s.tasks, t.id ≠ taskId := by
        intro t ht heq
        by_cases hst : t.status = TStatus.failed
        · exact h2 (List.find?_isSome.mpr ⟨t, ht, by simp [heq, hst]⟩)
        · exact h1 (List.find?_isSome.mpr ⟨t, ht, by simp [heq, hst]⟩)
      refine ⟨?_, ?_, ?_⟩
      · show ((({ id := taskId, status := TStatus.pending, progress := 0, error := none } : Task) :: s.tasks).map Task.id).Nodup
        rw [List.map_cons, List.nodup_cons]
        constructor
        · intro hmem
          rcases List.mem_map.mp hmem with ⟨u, hu, hue⟩
          exact hnotin u hu hue
        · exact hnd
      · intro hact t ht
        rcases List.mem_cons.mp ht with h | h
        · rw [h]
          simp
        · exact hnone hact t h
      · intro a ha t ht hdl
        rcases List.mem_cons.mp ht with h | h
        · rw [h] at hdl
          simp at hdl
        · exact hsome a ha t h hdl

theorem qinv_qstep (s : QState) (ev : QEvent) (hinv : QInv s) :
    QInv (qstep s ev) := by
  cases ev with
  | add taskId => exact qinv_addTask s taskId hinv
  | finish ok err => exact qinv_finishActive s ok err hinv

theorem qinv_qrun (evs : List QEvent) :
    ∀ s, QInv s → QInv (qrun s evs) := by
  induction evs with
  | nil => intro s hs; exact hs
  | cons e rest ih =>
    intro s hs
    rw [qrun, List.foldl_cons]
    exact ih (qstep s e) (qinv_qstep s e hs)

theorem qinv_init : QInv initState :=
  ⟨by simp [initState], fun _ t ht => absurd ht (List.not_mem_nil t),
   fun a ha t ht => absurd ht (List.not_mem_nil t)⟩

theorem downloadingCount_le_one (s : QState) (hinv : QInv s) :
    downloadingCount s ≤ 1 := by
  obtain ⟨hnd, hnone, hsome⟩ := hinv
  cases hact : s.activeTaskId with
  | none =>
    unfold downloadingCount
    have hz : ∀ t ∈ s.tasks, ¬((fun t => t.status == TStatus.downloading) t = true) := by
      intro t ht
      simp [hnone hact t ht]
    rw [List.countP_eq_zero.mpr hz]
    omega
  | some a =>
    unfold downloadingCount
    calc s.tasks.countP (fun t => t.status == TStatus.downloading)
        ≤ s.tasks.countP (fun t => t.id == a) := by
          apply List.countP_mono_left
          intro t ht h
          have := hsome a hact t ht (by simpa using h)
          simp [this]
      _ = List.count a (s.tasks.map Task.id) := by
          rw [List.count_eq_countP, List.countP_map]
          rfl
      _ ≤ 1 := List.nodup_iff_count_le_one.mp hnd a

/-- C2: single-flight.  For every sequence of store events — `addTask`
calls and transfer completions, processing driven only by `processQueue`
and `startDownload` — at most one task has status `downloading` at any
observed instant (each observable state between synchronous segments). -/
theorem single_flight (evs : List QEvent) :
    downloadingCount (qrun initState evs) ≤ 1 :=
  downloadingCount_le_one _ (qinv_qrun evs initState qinv_init)

theorem countP_map_lt :
    ∀ (l : List Task) (f : Task → Task) (p : Task → Bool),
      (∀ t ∈ l, p (f t) = true → p t = true) →
      ∀ t0, t0 ∈ l → p t0 = true → p (f t0) = false →
      (l.map f).countP p < l.countP p := by
  intro l f p
  induction l with
  | nil =>
    intro _ t0 ht0 _ _
    cases ht0
  | cons a rest ih =>
    intro hmono t0 ht0 hp hq
    rw [List.map_cons, List.countP_cons, List.countP_cons, List.countP_map]
    have hle : rest.countP (p ∘ f) ≤ rest.countP p := by
      apply List.countP_mono_left
      intro x hx hpx
      exact hmono x (List.mem_cons_of_mem a hx) hpx
    rcases List.mem_cons.mp ht0 with h | h
    · subst h
      rw [hp, hq]
      first | omega | (norm_num; omega)
    · have hlt := ih (fun x hx => hmono x (List.mem_cons_of_mem a hx)) t0 h hp hq
      rw [List.countP_map] at hlt
      by_cases hpa : p (f a) = true
      · have hpb : p a = true := hmono a (List.mem_cons_self a rest) hpa
        rw [hpa, hpb]
        omega
      · rw [Bool.not_eq_true] at hpa
        rw [hpa]
        by_cases hpb : p a = true
        · rw [hpb]
          first | omega | (norm_num; omega)
        · rw [Bool.not_eq_true] at hpb
          rw [hpb]
          omega

theorem startDownload_found (s : QState) (taskId : String)
    (h : (List.find? (fun t => t.id == taskId) s.tasks).isSome = true) :
    startDownload s taskId
      = { tasks := s.tasks.map (fun t =>
            if t.id == taskId
            then { t with status := TStatus.downloading, error := none }
            else t),
          activeTaskId := some taskId,
          started := s.started ++ [taskId] } := by
  simp only [startDownload]
  obtain ⟨u, hu⟩ := Option.isSome_iff_exists.mp h
  rw [hu]

theorem finishActive_true_some (s : QState) (a : String)
    (hact : s.activeTaskId = some a) :
    finishActive s true ""
      = processQueue
          { tasks := s.tasks.map (fun t =>
              if t.id == a
              then { t with status := TStatus.completed, progress := 100 }
              else t),
            activeTaskId := none, started := s.started } := by
  simp only [finishActive, hact, if_true, completeTask]

/-- The net effect, on one task, of being marked `downloading` by
`startDownload` and then completed by `completeTask` (both keyed on the
same id): helper of the crash-recovery argument. -/
def settleTask (a : String) (t : Task) : Task :=
  if t.id == a
  then { t with status := TStatus.completed, progress := 100, error := none }
  else t

/-- The store state after the first pending task `a` of `s` has been
started and its transfer completed, before the next `processQueue`. -/
def settledState (s : QState) (a : String) : QState :=
  { tasks := s.tasks.map (settleTask a),
    activeTaskId := none,
    started := s.started ++ [a] }

theorem finish_after_start (s : QState) (a : String)
    (hfound : (List.find? (fun t => t.id == a) s.tasks).isSome = true) :
    finishActive (startDownload s a) true "" = processQueue (settledState s a) := by
  rw [startDownload_found s a hfound]
  rw [finishActive_true_some _ a rfl]
  have hmap : (s.tasks.map (fun t =>
      if t.id == a then { t with status := TStatus.downloading, error := none }
      else t)).map (fun t =>
      if t.id == a then { t with status := TStatus.completed, progress := 100 }
      else t)
      = s.tasks.map (settleTask a) := by
    rw [List.map_map]
    apply List.map_congr_left
    intro u _
    by_cases hu : (u.id == a) = true
    · simp [Function.comp, settleTask, hu]
    · rw [Bool.not_eq_true] at hu
      simp [Function.comp, settleTask, hu]
  unfold settledState
  rw [hmap]

theorem pending_eventually_downloading :
    ∀ (m : Nat) (s : QState) (taskId : String),
      s.tasks.countP (fun t => t.status == TStatus.pending) ≤ m →
      s.activeTaskId = none →
      (∃ t ∈ s.tasks, t.id = taskId ∧ t.status = TStatus.pending) →
      ∃ n, ∃ t ∈ (finishIter n (processQueue s)).tasks,
        t.id = taskId ∧ t.status = TStatus.downloading := by
  intro m
  induction m with
  | zero =>
    intro s taskId hcount _ hex
    obtain ⟨t, ht, _, hpend⟩ := hex
    exfalso
    have hpos : 0 < s.tasks.countP (fun t => t.status == TStatus.pending) :=
      List.countP_pos_iff.mpr ⟨t, ht, by simp [hpend]⟩
    omega
  | succ m ih =>
    intro s taskId hcount hact hex
    obtain ⟨t, ht, hid, hpend⟩ := hex
    have hfind : (s.tasks.find? (fun t => t.status == TStatus.pending)).isSome :=
      List.find?_isSome.mpr ⟨t, ht, by simp [hpend]⟩
    obtain ⟨tstar, hts⟩ := Option.isSome_iff_exists.mp hfind
    have htsmem : tstar ∈ s.tasks := List.mem_of_find?_eq_some hts
    have htspend : tstar.status = TStatus.pending := by
      have := List.find?_some hts
      simpa using this
    have hpq : processQueue s = startDownload s tstar.id := by
      simp only [processQueue, hact, Option.isSome_none, Bool.false_eq_true,
                 if_false]
      rw [hts]
    have hfound : (List.find? (fun u => u.id == tstar.id) s.tasks).isSome = true :=
      List.find?_isSome.mpr ⟨tstar, htsmem, by simp⟩
    by_cases hcase : tstar.id = taskId
    · refine ⟨0, ?_⟩
      rw [finishIter, hpq, startDownload_found s tstar.id hfound]
      have hbeq : (t.id == tstar.id) = true := by
        rw [hid, hcase]
        exact beq_self_eq_true taskId
      refine ⟨_, List.mem_map_of_mem _ ht, ?_, ?_⟩
      · rw [hbeq]
        simp [hid]
      · rw [hbeq]
        simp
    · have hne : (t.id == tstar.id) = false := by
        rw [hid]
        exact beq_eq_false_iff_ne.mpr (fun hh => hcase hh.symm)
      have hS1count : (settledState s tstar.id).tasks.countP
          (fun t => t.status == TStatus.pending) ≤ m := by
        have hlt := countP_map_lt s.tasks (settleTask tstar.id)
          (fun t => t.status == TStatus.pending)
          ?_ tstar htsmem (by simp [htspend]) ?_
        · have hrfl : (settledState s tstar.id).tasks
              = s.tasks.map (settleTask tstar.id) := rfl
          rw [hrfl]
          omega
        · intro u _ hpu
          unfold settleTask at hpu
          by_cases h : (u.id == tstar.id) = true
          · rw [h] at hpu
            simp at hpu
          · rw [Bool.not_eq_true] at h
            rw [h] at hpu
            simpa using hpu
        · simp [settleTask]
      have hS1ex : ∃ u ∈ (settledState s tstar.id).tasks,
          u.id = taskId ∧ u.status = TStatus.pending := by
        refine ⟨_, List.mem_map_of_mem _ ht, ?_, ?_⟩
        · unfold settleTask
          rw [hne]
          simp [hid]
        · unfold settleTask
          rw [hne]
          simp [hpend]
      obtain ⟨n, hn⟩ := ih (settledState s tstar.id) taskId hS1count rfl hS1ex
      refine ⟨n + 1, ?_⟩
      rw [finishIter, hpq, finish_after_start s tstar.id hfound]
      exact hn

/-- C8: crash recovery.  `initializeQueue` demotes every `downloading`
task to `pending` and clears the active-task marker before running
`processQueue`; and for a persisted task list containing a `downloading`
task, with no competing activity (the queue is driven only by the
transfers it starts, each eventually completing), that task is `pending`
after the demotion and eventually `downloading` again. -/
theorem crash_recovery (s : QState) (d : Task) (hd : d ∈ s.tasks)
    (hst : d.status = TStatus.downloading) :
    ((demoteDownloading s).activeTaskId = none ∧
      ∃ t ∈ (demoteDownloading s).tasks, t.id = d.id ∧ t.status = TStatus.pending) ∧
    ∃ n, ∃ t ∈ (finishIter n (initializeQueue s)).tasks,
      t.id = d.id ∧ t.status = TStatus.downloading := by
  constructor
  · exact ⟨rfl, _, List.mem_map_of_mem _ hd, by simp [hst], by simp [hst]⟩
  · exact pending_eventually_downloading
      ((demoteDownloading s).tasks.countP (fun t => t.status == TStatus.pending))
      (demoteDownloading s) d.id (Nat.le_refl _) rfl
      ⟨_, List.mem_map_of_mem _ hd, by simp [hst], by simp [hst]⟩

/-- A persisted store with one orphaned `downloading` task, as left by a
killed process. -/
def crashState : QState :=
  { tasks := [{ id := "A", status := TStatus.downloading, progress := 37, error := none }],
    activeTaskId := none, started := [] }

/-- Witness for C8 at the one-task persisted store. -/
theorem crash_recovery_witness :
    ((demoteDownloading crashState).activeTaskId = none ∧
      ∃ t ∈ (demoteDownloading crashState).tasks,
        t.id = "A" ∧ t.status = TStatus.pending) ∧
    ∃ n, ∃ t ∈ (finishIter n (initializeQueue crashState)).tasks,
      t.id = "A" ∧ t.status = TStatus.downloading :=
  crash_recovery crashState
    { id := "A", status := TStatus.downloading, progress := 37, error := none }
    (List.mem_cons_self _ _) rfl

end TingReader
